import Mathlib

/-!
# cortinico/telebot: the polling / dispatch core

A shallow embedding of `telebot.go` and `telegram.go`.

* Go `string` values are Lean `String`s, Go `int64` / `int` values are `Int`s; the one
  place where 64-bit arithmetic is performed (`max_id+1`) goes through `wrapInt64`.
* The endless `for` loop of `getTeleMessages` is a fold over the list of things the
  outside world answers to the successive polls (`PollEvent`); the channel `mess` is
  the list of values sent on it, oldest first.
* `os.Exit(1)`, `time.Sleep` and `continue` are the three ways an iteration can end
  (`Next`).
-/

namespace Telebot

/-! ## telegram.go: the data model -/

/-- Details about the sender of the message. -/
structure teleFrom where
  Frmid : Int
  Fstname : String
  Sndname : String
  Uname : String
deriving DecidableEq

/-- Details about the chat of the message. -/
structure teleChat where
  Chatid : Int
  Fstname : String
  Sndname : String
  Uname : String
deriving DecidableEq

/-- Details about the specific message. -/
structure teleMessage where
  Text : String
  Mesid : Int
  From : teleFrom
  Chat : teleChat
  Date : Int
deriving DecidableEq

/-- A telegram resource: id + message. -/
structure teleResults where
  Updid : Int
  Message : teleMessage
deriving DecidableEq

/-- A general answer from Telegram API. -/
structure teleAnswer where
  Ok : Bool
  Result : List teleResults
  Error : Int
deriving DecidableEq

/-! ## telebot.go: configuration -/

/-- The running configuration of the bot. -/
structure Configuration where
  BotName : String
  ApiKey : String
  Timeout : String
deriving DecidableEq

/-! ## telebot.go: `getTeleMessages` -/

/-- The local state of `getTeleMessages` that survives an iteration: the cursor `max_id`
and the values sent so far on the channel `mess` (oldest first). -/
structure Poller where
  max_id : Int
  mess : List teleResults
deriving DecidableEq

/-- The state on entry of the loop: `max_id int64 = 0`, nothing sent yet. -/
def Poller.init : Poller := ⟨0, []⟩

/-- Body of `for _, msg := range messages.Result`:
`if msg.Updid > max_id { mess <- msg; max_id = msg.Updid }`. -/
def examine (st : Poller) (msg : teleResults) : Poller :=
  if msg.Updid > st.max_id then ⟨msg.Updid, st.mess ++ [msg]⟩ else st

/-- The loop `for _, msg := range messages.Result { ... }`. -/
def rangeResult (st : Poller) (result : List teleResults) : Poller :=
  result.foldl examine st

/-- What the outside world answers to one poll request. -/
inductive PollEvent where
  /-- The call `http.NewRequest` returns an error. -/
  | requestError
  /-- The call `client.Do(req)` returns an error. -/
  | doError
  /-- The call `ioutil.ReadAll(resp.Body)` returns an error. -/
  | readError
  /-- A body was read; `decoded` is `none` when `json.Unmarshal(body, &messages)` returns an
  error and `some messages` when it succeeds. -/
  | body (raw : String) (decoded : Option teleAnswer)
deriving DecidableEq

/-- How one iteration of the loop ends. -/
inductive Next where
  /-- The process ends with `os.Exit(1)`. -/
  | exit1
  /-- The iteration ends with `time.Sleep(30 * time.Second)` followed by `continue`. -/
  | sleep30
  /-- The next iteration starts right away (`continue` or the end of the loop body). -/
  | poll
deriving DecidableEq

/-- Go `strings.HasPrefix(s, p)`. -/
def hasPrefixStr (s p : String) : Bool := p.data.isPrefixOf s.data

/-- One iteration of the `for` loop of `getTeleMessages`, from the point where the request
has been built. -/
def iteration (st : Poller) : PollEvent → Next × Poller
  | .requestError => (.exit1, st)
  | .doError => (.poll, st)
  | .readError => (.poll, st)
  | .body raw none =>
    if hasPrefixStr raw "<!DOCTYPE html>" then (.exit1, st) else (.poll, st)
  | .body _ (some messages) =>
    if messages.Ok == false then
      if messages.Error = 401 ∨ messages.Error = 403 then (.exit1, st)
      else if messages.Error = 400 ∨ messages.Error = 404 then (.exit1, st)
      else if messages.Error ≥ 500 then (.sleep30, st)
      else (.poll, st)
    else (.poll, rangeResult st messages.Result)

/-- The loop of `getTeleMessages` run against the successive answers `evs`: the run stops at
the first `os.Exit(1)`; otherwise it is ready to poll again once the answers are used up. -/
def getTeleMessages (st : Poller) : List PollEvent → Next × Poller
  | [] => (.poll, st)
  | ev :: evs =>
    match iteration st ev with
    | (.exit1, st') => (.exit1, st')
    | (_, st') => getTeleMessages st' evs

/-- The answer is a successfully decoded response with `ok == true`. -/
def PollEvent.okTrue : PollEvent → Bool
  | .body _ (some messages) => messages.Ok
  | _ => false

/-- The results carried by a decoded answer (none when nothing was decoded). -/
def PollEvent.results : PollEvent → List teleResults
  | .body _ (some messages) => messages.Result
  | _ => []

/-- The concatenation of the results of a sequence of answers. -/
def allResults (evs : List PollEvent) : List teleResults :=
  evs.flatMap PollEvent.results

/-- An update that carries only an identifier. -/
def upd (id : Int) : teleResults :=
  ⟨id, ⟨"", 0, ⟨0, "", "", ""⟩, ⟨0, "", "", ""⟩, 0⟩⟩

/-- A successfully decoded `ok == true` answer with the given results. -/
def okEvent (result : List teleResults) : PollEvent :=
  .body "" (some ⟨true, result, 0⟩)

/-- The updates a scan starting at cursor `c` sends: those whose identifier exceeds the
cursor at the moment they are examined. -/
def qualifying (c : Int) : List teleResults → List teleResults
  | [] => []
  | m :: ms => if m.Updid > c then m :: qualifying m.Updid ms else qualifying c ms

/-- The integer `c` is the maximum of the list `ids`: it occurs in it and bounds it. -/
def IsMaxOf (c : Int) (ids : List Int) : Prop :=
  c ∈ ids ∧ ∀ i ∈ ids, i ≤ c

/-- The update identifiers carried by a sequence of answers, in the order received. -/
def idsSeen (evs : List PollEvent) : List Int :=
  (allResults evs).map teleResults.Updid

/-! ## telebot.go: `telegramPollURL` and the request of an iteration -/

/-- The value a Go `int64` holds after an operation whose exact result is `x`
(two-complement wrap-around). -/
def wrapInt64 (x : Int) : Int := (x + 2 ^ 63) % 2 ^ 64 - 2 ^ 63

/-- Go `strconv.FormatInt(i, 10)`: the decimal digits, with a leading minus sign for a
negative number. -/
def FormatInt : Int → String
  | .ofNat n => Nat.repr n
  | .negSucc n => "-" ++ Nat.repr (n + 1)

/-- The value of a decimal digit, `none` for any other character. -/
def digitVal (ch : Char) : Option Nat :=
  if '0' ≤ ch ∧ ch ≤ '9' then some (ch.toNat - '0'.toNat) else none

/-- The number written by a non-empty run of decimal digits (Go `strconv.ParseUint` in
base 10, before the range check). -/
def parseDigits : List Char → Option Nat
  | [] => none
  | cs => cs.foldl (fun acc ch => acc.bind fun n => (digitVal ch).map fun d => n * 10 + d) (some 0)

/-- Go `strconv.Atoi` with a 64-bit `int`: an optional sign, then decimal digits, the value
within the range of `int`; `none` stands for a non-nil error. -/
def Atoi (s : String) : Option Int :=
  match s.data with
  | [] => none
  | '-' :: cs => (parseDigits cs).bind fun n => if n ≤ 2 ^ 63 then some (-(n : Int)) else none
  | '+' :: cs => (parseDigits cs).bind fun n => if n < 2 ^ 63 then some (n : Int) else none
  | cs => (parseDigits cs).bind fun n => if n < 2 ^ 63 then some (n : Int) else none

/-- Returns the telegram poll URL, used to retrieve messages. -/
def telegramPollURL (conf : Configuration) (offset : String) : String :=
  let BASE_URL := "https://api.telegram.org/bot" ++ conf.ApiKey ++ "/"
  let conf : Configuration :=
    if conf.Timeout.length = 0 ∨ conf.Timeout = "0" then ⟨conf.BotName, conf.ApiKey, "60"⟩
    else conf
  let conf : Configuration :=
    if (Atoi conf.Timeout).isNone then ⟨conf.BotName, conf.ApiKey, "60"⟩ else conf
  BASE_URL ++ "getUpdates?offset=" ++ offset ++ "&timeout=" ++ conf.Timeout

/-- Returns the telegram send URL, used to send messages. -/
def telegramSendURL (conf : Configuration) : String :=
  "https://api.telegram.org/bot" ++ conf.ApiKey ++ "/sendMessage"

/-- First statement of the loop body of `getTeleMessages`:
`req_url := t.telegramPollURL(conf, strconv.FormatInt(max_id+1, 10))`. -/
def req_url (conf : Configuration) (st : Poller) : String :=
  telegramPollURL conf (FormatInt (wrapInt64 (st.max_id + 1)))

/-! ## telebot.go: `getResponse` -/

/-- Go `strings.Index` on the characters of a string: the position of the first occurrence
of `old`, `none` where Go returns `-1`. -/
def indexChars (old : List Char) : List Char → Option Nat
  | [] => if old.isPrefixOf [] then some 0 else none
  | c :: t => if old.isPrefixOf (c :: t) then some 0 else (indexChars old t).map (· + 1)

/-- The replacement loop of Go `strings.Replace` for a non-empty `old`: at most `k` more
occurrences are replaced, left to right, without overlap. -/
def replaceChars (old new : List Char) : Nat → List Char → List Char
  | 0, s => s
  | k + 1, s =>
    match indexChars old s with
    | none => s
    | some j => s.take j ++ new ++ replaceChars old new k (s.drop (j + old.length))

/-- The replacement loop of Go `strings.Replace` for an empty `old`, after the first
insertion: `new` is inserted after each of the next `k` characters. -/
def insertChars (new : List Char) : Nat → List Char → List Char
  | 0, s => s
  | _ + 1, [] => []
  | k + 1, c :: t => c :: (new ++ insertChars new k t)

/-- Go `strings.Replace(s, old, new, n)`: the first `n` non-overlapping instances of `old`
are replaced by `new`; all of them when `n < 0`. -/
def Replace (s old new : String) (n : Int) : String :=
  if old = new ∨ n = 0 then s
  else
    let k : Nat := if n < 0 then s.length + 1 else n.toNat
    if old.data.isEmpty then ⟨new.data ++ insertChars new.data (k - 1) s.data⟩
    else ⟨replaceChars old.data new.data k s.data⟩

/-- Responder function: for every message a couple `(string, error)`; `none` is Go `nil`. -/
abbrev Responder := String → String × Option String

/-- The reply sent when the Responder sets the error. -/
def fallbackAnswer : String := "I\x27m not able to answer :("

/-- Process a single user message and returns the answer. -/
def getResponse (message : String) (conf : Configuration) (resp : Responder) : String :=
  let message := Replace message ("@" ++ conf.BotName) "" 1
  let (answer, err) := resp message
  if err.isSome then fallbackAnswer else answer

/-! ## telebot.go: `Start` -/

/-- The effects `Start` performs, in program order. -/
inductive Action where
  /-- A line written by `fmt.Println` / `fmt.Printf`. -/
  | print (line : String)
  /-- The call `os.Exit(code)`; nothing follows it. -/
  | exit (code : Nat)
  /-- A channel creation `make(chan T, capacity)`, for the variable `name`. -/
  | makeChan (name : String) (capacity : Nat)
  /-- The call `signal.Notify(sigs, syscall.SIGINT, syscall.SIGTERM)`. -/
  | signalNotify
  /-- The statement `go t.getTeleMessages(mess, conf)`. -/
  | goGetTeleMessages
  /-- The statement `go t.handleTeleMessages(mess, conf, resp)`. -/
  | goHandleTeleMessages
  /-- The receive `<-sigs`. -/
  | waitSignal
deriving DecidableEq

/-- Starts the telegram bot: the effects of the body of `Start`, in program order. -/
def Start (conf : Configuration) (_resp : Responder) : List Action :=
  .print "INFO: Welcome to Telebot!" ::
  if conf.ApiKey.length = 0 then
    [.print "FATAL: API Key not set. Please check your configuration", .exit 1]
  else if conf.BotName.length = 0 then
    [.print "FATAL: Bot Name not set. Please check your configuration", .exit 1]
  else
    [.print "INFO: Settings loaded!",
     .print ("INFO: Working as: " ++ conf.BotName),
     .makeChan "sigs" 1,
     .signalNotify,
     .makeChan "mess" 1,
     .goGetTeleMessages,
     .goHandleTeleMessages,
     .waitSignal,
     .print "INFO: Exiting...\n"]

/-! ## Lemmas on the scan of a batch -/

theorem rangeResult_nil (st : Poller) : rangeResult st [] = st := rfl

theorem rangeResult_cons (st : Poller) (m : teleResults) (ms : List teleResults) :
    rangeResult st (m :: ms) = rangeResult (examine st m) ms := rfl

theorem rangeResult_append (st : Poller) (xs ys : List teleResults) :
    rangeResult st (xs ++ ys) = rangeResult (rangeResult st xs) ys := by
  simp [rangeResult, List.foldl_append]

theorem examine_max_id (st : Poller) (m : teleResults) :
    (examine st m).max_id = max st.max_id m.Updid := by
  unfold examine
  split
  · rename_i h
    simp only
    exact (max_eq_right (le_of_lt h)).symm
  · rename_i h
    exact (max_eq_left (not_lt.mp h)).symm

theorem examine_mess (st : Poller) (m : teleResults) :
    (examine st m).mess = st.mess ++ (if m.Updid > st.max_id then [m] else []) := by
  unfold examine
  split <;> simp

theorem rangeResult_max_id_le (st : Poller) (xs : List teleResults) :
    st.max_id ≤ (rangeResult st xs).max_id := by
  induction xs generalizing st with
  | nil => exact le_refl _
  | cons m ms ih =>
    rw [rangeResult_cons]
    refine le_trans ?_ (ih (examine st m))
    rw [examine_max_id]
    exact le_max_left _ _

theorem rangeResult_ge_of_mem (st : Poller) (xs : List teleResults) :
    ∀ m ∈ xs, m.Updid ≤ (rangeResult st xs).max_id := by
  induction xs generalizing st with
  | nil => intro m hm; cases hm
  | cons x xs ih =>
    intro m hm
    rw [rangeResult_cons]
    rcases List.mem_cons.mp hm with h | h
    · subst h
      refine le_trans ?_ (rangeResult_max_id_le (examine st m) xs)
      rw [examine_max_id]
      exact le_max_right _ _
    · exact ih (examine st x) m h

theorem rangeResult_max_id_mem (st : Poller) (xs : List teleResults) :
    (rangeResult st xs).max_id = st.max_id ∨
      ∃ m ∈ xs, (rangeResult st xs).max_id = m.Updid := by
  induction xs generalizing st with
  | nil => exact Or.inl rfl
  | cons x xs ih =>
    rw [rangeResult_cons]
    rcases ih (examine st x) with h | ⟨m, hm, h⟩
    · rw [h, examine_max_id]
      rcases max_choice st.max_id x.Updid with h' | h'
      · exact Or.inl h'
      · exact Or.inr ⟨x, List.mem_cons_self _ _, h'⟩
    · exact Or.inr ⟨m, List.mem_cons_of_mem _ hm, h⟩

theorem rangeResult_mess (st : Poller) (xs : List teleResults) :
    (rangeResult st xs).mess = st.mess ++ qualifying st.max_id xs := by
  induction xs generalizing st with
  | nil => simp [rangeResult_nil, qualifying]
  | cons x xs ih =>
    rw [rangeResult_cons, ih, examine_mess, qualifying]
    by_cases h : x.Updid > st.max_id
    · have : (examine st x).max_id = x.Updid := by simp [examine, h]
      simp [h, this]
    · have : (examine st x).max_id = st.max_id := by simp [examine, h]
      simp [h, this]

theorem iteration_okTrue (st : Poller) (ev : PollEvent) (h : ev.okTrue = true) :
    iteration st ev = (.poll, rangeResult st ev.results) := by
  cases ev with
  | requestError => simp [PollEvent.okTrue] at h
  | doError => simp [PollEvent.okTrue] at h
  | readError => simp [PollEvent.okTrue] at h
  | body raw decoded =>
    cases decoded with
    | none => simp [PollEvent.okTrue] at h
    | some messages =>
      simp only [PollEvent.okTrue] at h
      simp [iteration, PollEvent.results, h]

theorem getTeleMessages_okTrue (st : Poller) (evs : List PollEvent)
    (h : ∀ ev ∈ evs, ev.okTrue = true) :
    getTeleMessages st evs = (.poll, rangeResult st (allResults evs)) := by
  induction evs generalizing st with
  | nil => rfl
  | cons ev evs ih =>
    have h1 := iteration_okTrue st ev (h ev (List.mem_cons_self _ _))
    have h2 := ih (rangeResult st ev.results) (fun e he => h e (List.mem_cons_of_mem _ he))
    simp only [getTeleMessages, h1]
    have h3 : allResults (ev :: evs) = ev.results ++ allResults evs := by
      simp [allResults]
    rw [h3, rangeResult_append]
    exact h2

theorem qualifying_append (c : Int) (xs ys : List teleResults) :
    qualifying c (xs ++ ys) =
      qualifying c xs ++ qualifying (rangeResult ⟨c, []⟩ xs).max_id ys := by
  have h1 := rangeResult_mess ⟨c, []⟩ (xs ++ ys)
  rw [rangeResult_append, rangeResult_mess, rangeResult_mess] at h1
  simpa using h1.symm

theorem rangeResult_max_id_congr (c : Int) (ms ms' : List teleResults)
    (xs : List teleResults) :
    (rangeResult ⟨c, ms⟩ xs).max_id = (rangeResult ⟨c, ms'⟩ xs).max_id := by
  induction xs generalizing c ms ms' with
  | nil => rfl
  | cons x xs ih =>
    rw [rangeResult_cons, rangeResult_cons]
    by_cases h : x.Updid > c
    · simp only [examine, h, if_true]
      exact ih _ _ _
    · simp only [examine, h, if_false]
      exact ih _ _ _

theorem qualifying_gt (c : Int) (xs : List teleResults) :
    ∀ m ∈ qualifying c xs, c < m.Updid := by
  induction xs generalizing c with
  | nil => intro m hm; simp [qualifying] at hm
  | cons x xs ih =>
    intro m hm
    rw [qualifying] at hm
    by_cases h : x.Updid > c
    · rw [if_pos h] at hm
      rcases List.mem_cons.mp hm with h' | h'
      · subst h'; exact h
      · exact lt_trans h (ih x.Updid m h')
    · rw [if_neg h] at hm
      exact ih c m hm

theorem qualifying_increasing (c : Int) (xs : List teleResults) :
    ((qualifying c xs).map teleResults.Updid).Pairwise (· < ·) := by
  induction xs generalizing c with
  | nil => simp [qualifying]
  | cons x xs ih =>
    rw [qualifying]
    by_cases h : x.Updid > c
    · rw [if_pos h, List.map_cons, List.pairwise_cons]
      refine ⟨?_, ih x.Updid⟩
      intro i hi
      obtain ⟨m, hm, rfl⟩ := List.mem_map.mp hi
      exact qualifying_gt x.Updid xs m hm
    · rw [if_neg h]
      exact ih c

theorem qualifying_sublist (c : Int) (xs : List teleResults) :
    (qualifying c xs).Sublist xs := by
  induction xs generalizing c with
  | nil => simp [qualifying]
  | cons x xs ih =>
    rw [qualifying]
    by_cases h : x.Updid > c
    · rw [if_pos h]
      exact (ih x.Updid).cons₂ x
    · rw [if_neg h]
      exact (ih c).cons x

theorem qualifying_nodup (c : Int) (xs : List teleResults) :
    (qualifying c xs).Nodup := by
  have h := qualifying_increasing c xs
  rw [List.pairwise_map] at h
  exact h.imp (fun hab heq => by rw [heq] at hab; exact lt_irrefl _ hab)

theorem examine_eq_self_of_le (st : Poller) (m : teleResults)
    (h : m.Updid ≤ st.max_id) : examine st m = st := by
  unfold examine
  rw [if_neg (not_lt.mpr h)]

/-! ## The cursor and the channel (claims C1, C2, C3, C10) -/

/-- C1, as stated, fails: from cursor 0, one `ok == true` batch whose only update has
identifier `-5` leaves the cursor at 0, which is not the maximum identifier seen (`-5`). -/
theorem cursor_not_max_of_negative_ids :
    (∀ ev ∈ [okEvent [upd (-5)]], ev.okTrue = true) ∧
    idsSeen [okEvent [upd (-5)]] = [-5] ∧
    (getTeleMessages Poller.init [okEvent [upd (-5)]]).2.max_id = 0 ∧
    ¬ IsMaxOf (getTeleMessages Poller.init [okEvent [upd (-5)]]).2.max_id
        (idsSeen [okEvent [upd (-5)]]) := by
  refine ⟨by decide, by decide, by decide, ?_⟩
  intro h
  have h1 := h.1
  have h2 : (getTeleMessages Poller.init [okEvent [upd (-5)]]).2.max_id = 0 := by decide
  have h3 : idsSeen [okEvent [upd (-5)]] = [-5] := by decide
  rw [h2, h3] at h1
  simp at h1

/-- C1, amended: starting from cursor 0, after any sequence of successfully decoded
`ok == true` batches the cursor is the maximum of 0 and the update identifiers seen across
all batches (hence the maximum identifier seen as soon as one of them is not negative), and
the cursor never decreases from one processed update to the next, nor from one batch to
the next. -/
theorem cursor_is_max_of_zero_and_ids (evs : List PollEvent)
    (h : ∀ ev ∈ evs, ev.okTrue = true) :
    IsMaxOf (getTeleMessages Poller.init evs).2.max_id (0 :: idsSeen evs) ∧
    ((∃ i ∈ idsSeen evs, 0 ≤ i) →
      IsMaxOf (getTeleMessages Poller.init evs).2.max_id (idsSeen evs)) ∧
    (getTeleMessages Poller.init evs).2 = rangeResult Poller.init (allResults evs) ∧
    (∀ pre m post, allResults evs = pre ++ m :: post →
      (rangeResult Poller.init pre).max_id ≤
        (examine (rangeResult Poller.init pre) m).max_id) ∧
    (∀ evs₁ evs₂, evs = evs₁ ++ evs₂ →
      (getTeleMessages Poller.init evs₁).2.max_id ≤
        (getTeleMessages Poller.init evs).2.max_id) := by
  have hrun := getTeleMessages_okTrue Poller.init evs h
  have hmax : IsMaxOf (rangeResult Poller.init (allResults evs)).max_id
      (0 :: idsSeen evs) := by
    constructor
    · rcases rangeResult_max_id_mem Poller.init (allResults evs) with h0 | ⟨m, hm, h1⟩
      · rw [h0]; exact List.mem_cons_self _ _
      · rw [h1]
        exact List.mem_cons_of_mem _ (List.mem_map.mpr ⟨m, hm, rfl⟩)
    · intro i hi
      rcases List.mem_cons.mp hi with h0 | h1
      · rw [h0]; exact rangeResult_max_id_le Poller.init (allResults evs)
      · obtain ⟨m, hm, rfl⟩ := List.mem_map.mp h1
        exact rangeResult_ge_of_mem Poller.init (allResults evs) m hm
  rw [hrun]
  refine ⟨hmax, ?_, rfl, ?_, ?_⟩
  · rintro ⟨i, hi, hi0⟩
    refine ⟨?_, fun j hj => hmax.2 j (List.mem_cons_of_mem _ hj)⟩
    rcases List.mem_cons.mp hmax.1 with h0 | h1
    · have hle := hmax.2 i (List.mem_cons_of_mem _ hi)
      have : i = (rangeResult Poller.init (allResults evs)).max_id := by omega
      rw [← this]; exact hi
    · exact h1
  · intro pre m post _
    rw [examine_max_id]
    exact le_max_left _ _
  · intro evs₁ evs₂ hsplit
    have h₁ : ∀ ev ∈ evs₁, ev.okTrue = true := fun ev hev =>
      h ev (by rw [hsplit]; exact List.mem_append_left _ hev)
    rw [getTeleMessages_okTrue Poller.init evs₁ h₁]
    have : allResults evs = allResults evs₁ ++ allResults evs₂ := by
      rw [hsplit]; simp [allResults]
    rw [this, rangeResult_append]
    exact rangeResult_max_id_le _ _

/-- Witness of `cursor_is_max_of_zero_and_ids`: two batches, identifiers 5, 7 and then 6. -/
theorem cursor_is_max_of_zero_and_ids_witness :
    IsMaxOf (getTeleMessages Poller.init [okEvent [upd 5, upd 7], okEvent [upd 6]]).2.max_id
      (0 :: idsSeen [okEvent [upd 5, upd 7], okEvent [upd 6]]) :=
  (cursor_is_max_of_zero_and_ids [okEvent [upd 5, upd 7], okEvent [upd 6]]
    (by decide)).1

/-- C2: in an `ok == true` batch, whatever the cursor, the result `m` is sent on the channel
if and only if its identifier exceeds the cursor at the moment it is examined (the state
reached after the results before it), and nothing else happens to the channel; the messages
added by the batch all have an identifier above the cursor the batch started with, so an
update whose identifier is at most the current cursor is not enqueued again. -/
theorem pushed_iff_exceeds_cursor (st : Poller) (raw : String) (code : Int)
    (pre post : List teleResults) (m : teleResults) :
    ((examine (rangeResult st pre) m).mess = (rangeResult st pre).mess ++ [m] ↔
      m.Updid > (rangeResult st pre).max_id) ∧
    ((examine (rangeResult st pre) m).mess = (rangeResult st pre).mess ↔
      ¬ m.Updid > (rangeResult st pre).max_id) ∧
    (iteration st (.body raw (some ⟨true, pre ++ m :: post, code⟩))).2 =
      rangeResult (examine (rangeResult st pre) m) post ∧
    (iteration st (.body raw (some ⟨true, pre ++ m :: post, code⟩))).2.mess =
      st.mess ++ qualifying st.max_id (pre ++ m :: post) ∧
    (∀ x, x.Updid ≤ st.max_id → x ∉ qualifying st.max_id (pre ++ m :: post)) := by
  refine ⟨?_, ?_, ?_, ?_, ?_⟩
  · rw [examine_mess]
    by_cases hm : m.Updid > (rangeResult st pre).max_id <;> simp [hm]
  · rw [examine_mess]
    by_cases hm : m.Updid > (rangeResult st pre).max_id <;> simp [hm]
  · simp [iteration, rangeResult_append, rangeResult_cons]
  · simp [iteration, rangeResult_mess]
  · intro x hx hmem
    have := qualifying_gt st.max_id _ x hmem
    omega

/-- C3: for every sequence of `ok == true` batches, from any cursor, the updates sent on the
channel are a subsequence (order preserved) of the concatenation of the batches, without
repetition, and an update of the concatenation is part of it exactly when it qualifies, that
is when its identifier exceeds the cursor reached after the updates before it. With the
cursor at 3, the batch 5, 7 is sent as 5, 7 and the cursor ends at 7. -/
theorem channel_carries_qualifying_once_in_order (st : Poller) (evs : List PollEvent)
    (h : ∀ ev ∈ evs, ev.okTrue = true) :
    (getTeleMessages st evs).2.mess = st.mess ++ qualifying st.max_id (allResults evs) ∧
    (qualifying st.max_id (allResults evs)).Sublist (allResults evs) ∧
    (qualifying st.max_id (allResults evs)).Nodup ∧
    (∀ pre m post, allResults evs = pre ++ m :: post →
      qualifying st.max_id (allResults evs) =
        qualifying st.max_id pre ++
          (if m.Updid > (rangeResult st pre).max_id then [m] else []) ++
          qualifying (rangeResult st (pre ++ [m])).max_id post) ∧
    getTeleMessages ⟨3, []⟩ [okEvent [upd 5, upd 7]] = (.poll, ⟨7, [upd 5, upd 7]⟩) := by
  refine ⟨?_, qualifying_sublist _ _, qualifying_nodup _ _, ?_, by decide⟩
  · rw [getTeleMessages_okTrue st evs h, rangeResult_mess]
  · intro pre m post hsplit
    have e1 : pre ++ m :: post = (pre ++ [m]) ++ post := by simp
    have hc : ∀ xs, (rangeResult ⟨st.max_id, []⟩ xs).max_id = (rangeResult st xs).max_id :=
      fun xs => rangeResult_max_id_congr st.max_id [] st.mess xs
    rw [hsplit, e1, qualifying_append, qualifying_append, hc, hc]
    rfl

/-- Witness of `channel_carries_qualifying_once_in_order`: cursor 3, one batch 5, 7. -/
theorem channel_carries_qualifying_once_in_order_witness :
    (getTeleMessages ⟨3, []⟩ [okEvent [upd 5, upd 7]]).2.mess =
      ([] : List teleResults) ++ qualifying 3 (allResults [okEvent [upd 5, upd 7]]) :=
  (channel_carries_qualifying_once_in_order ⟨3, []⟩ [okEvent [upd 5, upd 7]]
    (by decide)).1

/-- C10: from the initial cursor 0, for every sequence of `ok == true` batches, the
identifiers of the updates sent on the channel, in sending order over the whole run, are
strictly increasing and all greater than 0; an update whose identifier is at most 0 is
never sent, and examining an update that comes after an update with a larger identifier
(same batch or an earlier one) sends nothing and leaves the state as it was. -/
theorem pushed_ids_strictly_increasing (evs : List PollEvent)
    (h : ∀ ev ∈ evs, ev.okTrue = true) :
    (((getTeleMessages Poller.init evs).2.mess).map teleResults.Updid).Pairwise (· < ·) ∧
    (∀ m ∈ (getTeleMessages Poller.init evs).2.mess, 0 < m.Updid) ∧
    (∀ u, u.Updid ≤ 0 → u ∉ (getTeleMessages Poller.init evs).2.mess) ∧
    (∀ pre u post, allResults evs = pre ++ u :: post →
      (u.Updid ≤ 0 ∨ ∃ x ∈ pre, x.Updid > u.Updid) →
      examine (rangeResult Poller.init pre) u = rangeResult Poller.init pre ∧
      (getTeleMessages Poller.init evs).2 = rangeResult Poller.init (pre ++ post)) := by
  have hmess : (getTeleMessages Poller.init evs).2.mess = qualifying 0 (allResults evs) := by
    rw [getTeleMessages_okTrue Poller.init evs h, rangeResult_mess]
    simp [Poller.init]
  refine ⟨?_, ?_, ?_, ?_⟩
  · rw [hmess]; exact qualifying_increasing 0 _
  · rw [hmess]; exact qualifying_gt 0 _
  · intro u hu hmem
    rw [hmess] at hmem
    have := qualifying_gt 0 _ u hmem
    omega
  · intro pre u post hsplit hu
    have hle : u.Updid ≤ (rangeResult Poller.init pre).max_id := by
      rcases hu with h0 | ⟨x, hx, hgt⟩
      · exact le_trans h0 (rangeResult_max_id_le Poller.init pre)
      · exact le_trans (le_of_lt hgt) (rangeResult_ge_of_mem Poller.init pre x hx)
    have hex := examine_eq_self_of_le _ u hle
    refine ⟨hex, ?_⟩
    rw [getTeleMessages_okTrue Poller.init evs h, hsplit, rangeResult_append,
      rangeResult_cons, hex, rangeResult_append]

/-- Witness of `pushed_ids_strictly_increasing`: the batches 7, 5 and then 0, 9. -/
theorem pushed_ids_strictly_increasing_witness :
    (((getTeleMessages Poller.init [okEvent [upd 7, upd 5], okEvent [upd 0, upd 9]]).2.mess).map
      teleResults.Updid).Pairwise (· < ·) :=
  (pushed_ids_strictly_increasing [okEvent [upd 7, upd 5], okEvent [upd 0, upd 9]]
    (by decide)).1

/-! ## Mention stripping and the fallback reply (claims C4, C5) -/

theorem indexChars_of_isPrefixOf (old s : List Char) (h : old.isPrefixOf s = true) :
    indexChars old s = some 0 := by
  cases s with
  | nil => simp [indexChars, h]
  | cons c t => simp [indexChars, h]

theorem indexChars_leftmost (old p t : List Char)
    (hleft : ∀ p' t', p ++ old ++ t = p' ++ old ++ t' → p.length ≤ p'.length) :
    indexChars old (p ++ old ++ t) = some p.length := by
  induction p with
  | nil =>
    apply indexChars_of_isPrefixOf
    rw [List.isPrefixOf_iff_prefix]
    simp
  | cons c p ih =>
    have hno : ¬ old.isPrefixOf (c :: (p ++ old ++ t)) = true := by
      intro hp
      rw [List.isPrefixOf_iff_prefix] at hp
      obtain ⟨r, hr⟩ := hp
      have := hleft [] r (by simpa using hr.symm)
      simp at this
    have ih' := ih (fun p' t' heq => by
      have := hleft (c :: p') t' (by simp [heq])
      simpa using this)
    have hcons : c :: p ++ old ++ t = c :: (p ++ old ++ t) := by simp
    rw [hcons]
    simp only [indexChars, hno, if_false, ih', Option.map_some', List.length_cons]
    rfl

theorem replaceChars_first (old p t : List Char)
    (hleft : ∀ p' t', p ++ old ++ t = p' ++ old ++ t' → p.length ≤ p'.length) :
    replaceChars old [] 1 (p ++ old ++ t) = p ++ t := by
  have hi := indexChars_leftmost old p t hleft
  have htake : List.take p.length (p ++ old ++ t) = p := by
    rw [List.append_assoc]; exact List.take_left _ _
  have hdrop : List.drop (p.length + old.length) (p ++ old ++ t) = t := by
    rw [← List.length_append]; exact List.drop_left _ _
  simp only [replaceChars, hi, htake, hdrop, List.append_nil]

theorem leftmost_of_no_earlier (text old p : String)
    (hno : ∀ k < p.length, old.data.isPrefixOf (text.data.drop k) = false) :
    ∀ p' s' : String, text = p' ++ old ++ s' → p.length ≤ p'.length := by
  intro p' s' heq
  by_contra hlt
  have hk := hno p'.length (not_le.mp hlt)
  have hd : text.data = p'.data ++ (old.data ++ s'.data) := by
    rw [heq, String.data_append, String.data_append, List.append_assoc]
  have hdrop : List.drop p'.length text.data = old.data ++ s'.data := by
    rw [hd]; exact List.drop_left _ _
  rw [hdrop] at hk
  have : old.data.isPrefixOf (old.data ++ s'.data) = true := by
    rw [List.isPrefixOf_iff_prefix]; exact List.prefix_append _ _
  rw [this] at hk
  cases hk

theorem Replace_first (text old p s : String) (hold : old ≠ "")
    (hsplit : text = p ++ old ++ s)
    (hleft : ∀ p' s' : String, text = p' ++ old ++ s' → p.length ≤ p'.length) :
    Replace text old "" 1 = p ++ s := by
  have hne : old.data.isEmpty = false := by
    cases hd : old.data with
    | nil => exact absurd (String.ext hd) hold
    | cons c cs => rfl
  have hl : ∀ p' t', p.data ++ old.data ++ s.data = p' ++ old.data ++ t' →
      p.data.length ≤ p'.length := by
    intro p' t' heq
    have h1 : text = (⟨p'⟩ : String) ++ old ++ ⟨t'⟩ := by
      rw [hsplit]
      apply String.ext
      rw [String.data_append, String.data_append, String.data_append, String.data_append]
      exact heq
    exact hleft ⟨p'⟩ ⟨t'⟩ h1
  have hcond : ¬ (old = "" ∨ (1 : Int) = 0) := by
    rintro (h | h)
    · exact hold h
    · exact absurd h (by decide)
  have hdata : text.data = p.data ++ old.data ++ s.data := by
    rw [hsplit, String.data_append, String.data_append]
  unfold Replace
  rw [if_neg hcond]
  have hk : (if (1 : Int) < 0 then text.length + 1 else (1 : Int).toNat) = 1 := by
    rw [if_neg (by decide)]; rfl
  simp only [hk, hne, Bool.false_eq_true, if_false]
  apply String.ext
  show replaceChars old.data ("" : String).data 1 text.data = (p ++ s).data
  rw [hdata, String.data_append]
  exact replaceChars_first old.data p.data s.data hl

theorem at_name_ne_empty (botName : String) : "@" ++ botName ≠ "" := by
  intro h
  have := congrArg String.data h
  simp [String.data_append] at this

/-- C4: for every bot name and every inbound text `p ++ "@" ++ botName ++ s`, split at the
leftmost occurrence of `"@" ++ botName`, `getResponse` hands the Responder exactly `p ++ s`:
that one occurrence is removed and nothing else (later occurrences inside `s` stay). The
reply is computed from the Responder at `p ++ s`, and a Responder that echoes its argument
gets `p ++ s` back. -/
theorem getResponse_strips_first_mention (botName apiKey timeout text p s : String)
    (hsplit : text = p ++ ("@" ++ botName) ++ s)
    (hleft : ∀ p' s' : String, text = p' ++ ("@" ++ botName) ++ s' → p.length ≤ p'.length) :
    Replace text ("@" ++ botName) "" 1 = p ++ s ∧
    (∀ resp : Responder, getResponse text ⟨botName, apiKey, timeout⟩ resp =
      if (resp (p ++ s)).2.isSome then fallbackAnswer else (resp (p ++ s)).1) ∧
    getResponse text ⟨botName, apiKey, timeout⟩ (fun m => (m, none)) = p ++ s := by
  have hrep := Replace_first text ("@" ++ botName) p s (at_name_ne_empty botName) hsplit hleft
  refine ⟨hrep, ?_, ?_⟩
  · intro resp
    simp only [getResponse, hrep]
  · simp only [getResponse, hrep]
    rfl

/-- Witness of `getResponse_strips_first_mention`: `/start@Bot now @Bot` for the bot `Bot`. -/
theorem getResponse_strips_first_mention_witness :
    Replace "/start@Bot now @Bot" ("@" ++ "Bot") "" 1 = "/start" ++ " now @Bot" :=
  (getResponse_strips_first_mention "Bot" "k" "" "/start@Bot now @Bot" "/start" " now @Bot"
    (by decide)
    (leftmost_of_no_earlier "/start@Bot now @Bot" ("@" ++ "Bot") "/start" (by decide))).1

/-- C5: for every message, configuration and Responder, when the Responder's answer to the
(mention-stripped) message comes with a non-nil error, `getResponse` returns the fixed
fallback string, whatever text came with the error. -/
theorem getResponse_fallback_on_error (message : String) (conf : Configuration)
    (resp : Responder) (text err : String)
    (herr : resp (Replace message ("@" ++ conf.BotName) "" 1) = (text, some err)) :
    getResponse message conf resp = fallbackAnswer ∧
    fallbackAnswer = "I\x27m not able to answer :(" := by
  refine ⟨?_, rfl⟩
  simp only [getResponse, herr]
  rfl

/-- Witness of `getResponse_fallback_on_error`: the Responder answers `("", failure)`
to `/ping`. -/
theorem getResponse_fallback_on_error_witness :
    getResponse "/ping" ⟨"Bot", "k", ""⟩ (fun _ => ("", some "failure")) = fallbackAnswer :=
  (getResponse_fallback_on_error "/ping" ⟨"Bot", "k", ""⟩ (fun _ => ("", some "failure"))
    "" "failure" rfl).1

/-! ## How an iteration ends (claims C6, C7) -/

theorem hasPrefixStr_iff (s p : String) :
    hasPrefixStr s p = true ↔ ∃ rest : String, s = p ++ rest := by
  unfold hasPrefixStr
  rw [List.isPrefixOf_iff_prefix]
  constructor
  · rintro ⟨r, hr⟩
    refine ⟨⟨r⟩, ?_⟩
    apply String.ext
    rw [String.data_append]
    exact hr.symm
  · rintro ⟨rest, hrest⟩
    refine ⟨rest.data, ?_⟩
    rw [hrest, String.data_append]

theorem iteration_not_okTrue (st : Poller) (ev : PollEvent) (h : ev.okTrue = false) :
    (iteration st ev).2 = st := by
  cases ev with
  | requestError => rfl
  | doError => rfl
  | readError => rfl
  | body raw decoded =>
    cases decoded with
    | none =>
      simp only [iteration]
      split <;> rfl
    | some messages =>
      simp only [PollEvent.okTrue] at h
      simp only [iteration, h, beq_self_eq_true, if_true]
      split
      · rfl
      · split
        · rfl
        · split <;> rfl

/-- C6: for every response body received by an iteration of `getTeleMessages`, the iteration
ends in `os.Exit(1)` exactly when decoding fails and the body starts with
`<!DOCTYPE html>`, or decoding succeeds with `ok == false` and error code 400, 401, 403 or
404; it ends in the 30-second sleep followed by a retry exactly when decoding succeeds with
`ok == false` and an error code of 500 or more; in every other case the next poll follows
with neither termination nor sleep. -/
theorem iteration_end_classification (st : Poller) (raw : String)
    (decoded : Option teleAnswer) :
    ((iteration st (.body raw decoded)).1 = .exit1 ↔
      (decoded = none ∧ ∃ rest : String, raw = "<!DOCTYPE html>" ++ rest) ∨
      ∃ messages, decoded = some messages ∧ messages.Ok = false ∧
        (messages.Error = 400 ∨ messages.Error = 401 ∨ messages.Error = 403 ∨
          messages.Error = 404)) ∧
    ((iteration st (.body raw decoded)).1 = .sleep30 ↔
      ∃ messages, decoded = some messages ∧ messages.Ok = false ∧ 500 ≤ messages.Error) ∧
    ((iteration st (.body raw decoded)).1 ≠ .exit1 →
      (iteration st (.body raw decoded)).1 ≠ .sleep30 →
      (iteration st (.body raw decoded)).1 = .poll) := by
  cases decoded with
  | none =>
    by_cases hp : hasPrefixStr raw "<!DOCTYPE html>" = true
    · have hex := (hasPrefixStr_iff raw "<!DOCTYPE html>").mp hp
      simp [iteration, hp, hex]
    · have hex : ¬ ∃ rest : String, raw = "<!DOCTYPE html>" ++ rest :=
        fun h => hp ((hasPrefixStr_iff raw "<!DOCTYPE html>").mpr h)
      simp [iteration, hp, hex]
  | some messages =>
    rcases messages with ⟨ok, result, code⟩
    cases ok with
    | true => simp [iteration]
    | false =>
      by_cases h1 : code = 401 ∨ code = 403
      · have h5 : ¬ 500 ≤ code := by omega
        have h4 : code = 400 ∨ code = 401 ∨ code = 403 ∨ code = 404 := by omega
        simp [iteration, h1, h4, h5]
      · by_cases h2 : code = 400 ∨ code = 404
        · have h5 : ¬ 500 ≤ code := by omega
          have h4 : code = 400 ∨ code = 401 ∨ code = 403 ∨ code = 404 := by omega
          simp [iteration, h1, h2, h4, h5]
        · have h4 : ¬ (code = 400 ∨ code = 401 ∨ code = 403 ∨ code = 404) := by omega
          by_cases h5 : 500 ≤ code
          · simp [iteration, h1, h2, h4, h5]
          · simp [iteration, h1, h2, h4, h5]

/-- C7: an iteration of `getTeleMessages` that does not end with a successfully decoded
`ok == true` response (transport error, body-read error, decode error, `ok == false` with
any error code and any results in the body) sends nothing on the channel and leaves the
cursor unchanged, so the next request is built with the same offset; when the process goes
on, the run continues exactly as if the failed attempt had not taken place. -/
theorem failed_iteration_leaves_state (st : Poller) (ev : PollEvent) (conf : Configuration)
    (h : ev.okTrue = false) :
    (iteration st ev).2.mess = st.mess ∧
    (iteration st ev).2.max_id = st.max_id ∧
    req_url conf (iteration st ev).2 = req_url conf st ∧
    ((iteration st ev).1 ≠ .exit1 →
      ∀ evs, getTeleMessages st (ev :: evs) = getTeleMessages st evs) := by
  have hst := iteration_not_okTrue st ev h
  refine ⟨by rw [hst], by rw [hst], by rw [hst], ?_⟩
  intro hne evs
  rcases hit : iteration st ev with ⟨nx, st'⟩
  rw [hit] at hst hne
  simp only at hst hne
  subst hst
  cases nx with
  | exit1 => exact absurd rfl hne
  | sleep30 => simp only [getTeleMessages, hit]
  | poll => simp only [getTeleMessages, hit]

/-- Witness of `failed_iteration_leaves_state`: the answer `ok:false, error_code:503`
with a result in its body, at cursor 3. -/
theorem failed_iteration_leaves_state_witness :
    (iteration ⟨3, [upd 2]⟩ (.body "" (some ⟨false, [upd 9], 503⟩))).2.mess = [upd 2] :=
  (failed_iteration_leaves_state ⟨3, [upd 2]⟩ (.body "" (some ⟨false, [upd 9], 503⟩))
    ⟨"Bot", "k", ""⟩ rfl).1

/-! ## The poll request (claim C8) -/

theorem Atoi_60 : Atoi "60" = some 60 := by decide

theorem telegramPollURL_eq (conf : Configuration) (offset : String) :
    telegramPollURL conf offset =
      "https://api.telegram.org/bot" ++ conf.ApiKey ++ "/getUpdates?offset=" ++ offset ++
        "&timeout=" ++
        (if conf.Timeout = "" ∨ conf.Timeout = "0" ∨ Atoi conf.Timeout = none then "60"
          else conf.Timeout) := by
  have hlen : conf.Timeout.length = 0 ↔ conf.Timeout = "" := by
    constructor
    · intro h
      apply String.ext
      exact List.length_eq_zero.mp h
    · intro h
      rw [h]; rfl
  have hassoc : "https://api.telegram.org/bot" ++ conf.ApiKey ++ "/" ++ "getUpdates?offset=" =
      "https://api.telegram.org/bot" ++ conf.ApiKey ++ "/getUpdates?offset=" := by
    rw [String.append_assoc _ "/" _]
    rfl
  unfold telegramPollURL
  simp only [hassoc]
  by_cases h1 : conf.Timeout = "" ∨ conf.Timeout = "0"
  · have h1' : conf.Timeout.length = 0 ∨ conf.Timeout = "0" := by
      rcases h1 with h | h
      · exact Or.inl (hlen.mpr h)
      · exact Or.inr h
    have h3 : conf.Timeout = "" ∨ conf.Timeout = "0" ∨ Atoi conf.Timeout = none := by
      rcases h1 with h | h
      · exact Or.inl h
      · exact Or.inr (Or.inl h)
    simp only [h1', h3, if_true, Atoi_60, Option.isNone_some, Bool.false_eq_true, if_false]
  · have h1' : ¬ (conf.Timeout.length = 0 ∨ conf.Timeout = "0") := by
      rintro (h | h)
      · exact h1 (Or.inl (hlen.mp h))
      · exact h1 (Or.inr h)
    simp only [h1', if_false]
    cases hA : Atoi conf.Timeout with
    | none =>
      simp only [Option.isNone_none, if_true, or_true]
    | some v =>
      have h3 : ¬ (conf.Timeout = "" ∨ conf.Timeout = "0" ∨ some v = none) := by
        rintro (h | h | h)
        · exact h1 (Or.inl h)
        · exact h1 (Or.inr h)
        · cases h
      simp only [Option.isNone_some, Bool.false_eq_true, if_false, h3]

/-- C8, as stated, fails: at the cursor 9223372036854775807 the 64-bit sum `max_id+1`
wraps, and the request carries the offset `-9223372036854775808`, not the decimal writing
of cursor + 1. -/
theorem req_url_offset_wraps_at_max_int64 :
    req_url ⟨"Bot", "k", ""⟩ ⟨9223372036854775807, []⟩ =
      "https://api.telegram.org/botk/getUpdates?offset=-9223372036854775808&timeout=60" ∧
    req_url ⟨"Bot", "k", ""⟩ ⟨9223372036854775807, []⟩ ≠
      "https://api.telegram.org/bot" ++ "k" ++ "/getUpdates?offset=" ++
        FormatInt (9223372036854775807 + 1) ++ "&timeout=" ++ "60" := by
  constructor <;> decide

/-- C8, amended: for every configuration and every cursor value, the poll request built by
`getTeleMessages` through `telegramPollURL` is exactly
`"https://api.telegram.org/bot" + ApiKey + "/getUpdates?offset=" + decimal(o) + "&timeout=" + T`
where `o` is cursor + 1 computed in signed 64-bit arithmetic (cursor + 1 for every cursor
below 9223372036854775807, and -9223372036854775808 at that cursor) and `T` is the
configured Timeout string, except that `T` is `"60"` when the configured value is empty,
is `"0"`, or is not parseable as an integer. -/
theorem req_url_exact (conf : Configuration) (st : Poller) :
    req_url conf st =
      "https://api.telegram.org/bot" ++ conf.ApiKey ++ "/getUpdates?offset=" ++
        FormatInt (wrapInt64 (st.max_id + 1)) ++ "&timeout=" ++
        (if conf.Timeout = "" ∨ conf.Timeout = "0" ∨ Atoi conf.Timeout = none then "60"
          else conf.Timeout) ∧
    (-9223372036854775808 ≤ st.max_id → st.max_id < 9223372036854775807 →
      wrapInt64 (st.max_id + 1) = st.max_id + 1) ∧
    (st.max_id = 9223372036854775807 →
      wrapInt64 (st.max_id + 1) = -9223372036854775808) := by
  refine ⟨telegramPollURL_eq conf _, ?_, ?_⟩
  · intro hlo hhi
    unfold wrapInt64
    omega
  · intro h
    rw [h]
    decide

/-! ## Start-up (claim C9) -/

theorem length_eq_zero_iff_eq_empty (s : String) : s.length = 0 ↔ s = "" := by
  constructor
  · intro h
    apply String.ext
    exact List.length_eq_zero.mp h
  · intro h
    rw [h]; rfl

/-- C9: for every configuration and Responder, `Start` itself ends the process with
`os.Exit(1)` (a non-zero status) if and only if the API credential or the bot identifier
is empty; in that case the exit is the last thing `Start` does, and it comes before any
signal registration and before the Poller or the Dispatcher is started; otherwise `Start`
registers for signals, starts both, and waits for a signal. -/
theorem Start_fatal_iff_missing_setting (conf : Configuration) (resp : Responder) :
    ((∃ code, code ≠ 0 ∧ Action.exit code ∈ Start conf resp) ↔
      (conf.ApiKey = "" ∨ conf.BotName = "")) ∧
    (∀ code, Action.exit code ∈ Start conf resp → code = 1) ∧
    ((conf.ApiKey = "" ∨ conf.BotName = "") →
      (Start conf resp).getLast? = some (Action.exit 1) ∧
      Action.signalNotify ∉ Start conf resp ∧
      Action.goGetTeleMessages ∉ Start conf resp ∧
      Action.goHandleTeleMessages ∉ Start conf resp ∧
      Action.waitSignal ∉ Start conf resp) ∧
    (¬ (conf.ApiKey = "" ∨ conf.BotName = "") →
      Start conf resp =
        [.print "INFO: Welcome to Telebot!",
         .print "INFO: Settings loaded!",
         .print ("INFO: Working as: " ++ conf.BotName),
         .makeChan "sigs" 1, .signalNotify, .makeChan "mess" 1,
         .goGetTeleMessages, .goHandleTeleMessages, .waitSignal,
         .print "INFO: Exiting...\n"]) := by
  have hA := length_eq_zero_iff_eq_empty conf.ApiKey
  have hB := length_eq_zero_iff_eq_empty conf.BotName
  by_cases h1 : conf.ApiKey = ""
  · have h1' := hA.mpr h1
    simp [Start, h1, h1']
  · have h1' : ¬ conf.ApiKey.length = 0 := fun h => h1 (hA.mp h)
    by_cases h2 : conf.BotName = ""
    · have h2' := hB.mpr h2
      simp [Start, h1, h1', h2, h2']
    · have h2' : ¬ conf.BotName.length = 0 := fun h => h2 (hB.mp h)
      simp [Start, h1, h1', h2, h2']

end Telebot
